import Mathlib

/-!
Verification development for the Faulkner County real-estate dashboard
(src/app.js): a shallow embedding of its ingestion, normalization,
deduplication, filtering, aggregation and batch-upload logic, together
with theorems settling the specification claims about that logic.

Modelling conventions:
* JS numbers are modelled as rationals, with an explicit NaN sentinel
  where the code can produce or test NaN.
* JS Date objects are modelled by their epoch value in milliseconds
  (an integer); an invalid date is modelled as Option.none where the
  code only ever branches on validity.  getFullYear is modelled in UTC
  via the standard civil-from-days calendar algorithm.
* JS strings are Lean strings; the character-level operations the code
  uses (trim, toLowerCase, toUpperCase, global single-character replace,
  stripping of currency characters) are defined explicitly over the
  underlying character list so that they evaluate by kernel reduction.
* parseFloat and Number-coercion are modelled on the decimal fragment
  the data uses (optional sign, digits, decimal point, exponent);
  hexadecimal and Infinity forms do not occur in this pipeline.
-/

namespace FaulknerRE

/-- An untyped JavaScript value, restricted to the shapes the pipeline
handles: a (non-NaN) number, the number NaN, a string, null/undefined,
and any other non-numeric non-string object. -/
inductive JVal where
  | num (q : ℚ)
  | nan
  | str (s : String)
  | nullv
  | other
deriving DecidableEq

/-- Whitespace characters trimmed by JS string/number parsing. -/
def isWsChar (c : Char) : Bool :=
  c == ' ' || c == '\t' || c == '\n' || c == '\r'

/-- Numeric value of a decimal digit character. -/
def digitVal (c : Char) : Nat := c.toNat - 48

/-- Value of a list of decimal digit characters, most significant first. -/
def digitsToNat (cs : List Char) : Nat :=
  cs.foldl (fun n c => 10 * n + digitVal c) 0

/-- Split an optional leading sign off a character list; the Bool is
true for a negative sign. -/
def splitSign (cs : List Char) : Bool × List Char :=
  match cs with
  | '-' :: t => (true, t)
  | '+' :: t => (false, t)
  | t => (false, t)

/-- Read an optional exponent part.  An exponent marker without
following digits is not consumed, matching parseFloat("1e") = 1. -/
def splitExp (cs : List Char) : Int × List Char :=
  match cs with
  | e :: u =>
    if e == 'e' || e == 'E' then
      let sr := splitSign u
      let eds := sr.2.takeWhile Char.isDigit
      if eds.isEmpty then (0, cs)
      else ((if sr.1 then -1 else 1) * (digitsToNat eds : Int), sr.2.dropWhile Char.isDigit)
    else (0, cs)
  | [] => (0, cs)

/-- Core decimal parser shared by the parseFloat and Number models:
reads an optional sign, integer digits, an optional fractional part and
an optional exponent from the front of the character list, returning the
parsed value and the unconsumed rest, or none when no digits are found.
The value of an integral literal is produced through exact integer
arithmetic (the two branches of the if agree mathematically; the first
keeps kernel reduction available for concrete integral inputs). -/
def parseNumCore (cs : List Char) : Option (ℚ × List Char) :=
  let sr := splitSign cs
  let intDigits := sr.2.takeWhile Char.isDigit
  let rest1 := sr.2.dropWhile Char.isDigit
  let fr : List Char × List Char :=
    match rest1 with
    | '.' :: u => (u.takeWhile Char.isDigit, u.dropWhile Char.isDigit)
    | _ => ([], rest1)
  if intDigits.isEmpty && fr.1.isEmpty then none
  else
    let er := splitExp fr.2
    let signInt : Int := if sr.1 then -1 else 1
    let value : ℚ :=
      if fr.1.isEmpty && 0 ≤ er.1 then
        ((signInt * (digitsToNat intDigits : Int) * (10 : Int) ^ er.1.toNat : Int) : ℚ)
      else
        (signInt : ℚ) *
          ((digitsToNat intDigits : ℚ) + (digitsToNat fr.1 : ℚ) / (10 : ℚ) ^ fr.1.length) *
          (if 0 ≤ er.1 then ((10 : ℚ) ^ er.1.toNat) else 1 / (10 : ℚ) ^ (-er.1).toNat)
    some (value, er.2)

/-- Model of JS parseFloat: skip leading whitespace, parse the longest
numeric prefix; none models a NaN result. -/
def parseFloat (s : String) : Option ℚ :=
  match parseNumCore (s.data.dropWhile isWsChar) with
  | some (q, _) => some q
  | none => none

/-- Drop whitespace from both ends of a character list. -/
def trimChars (cs : List Char) : List Char :=
  ((cs.dropWhile isWsChar).reverse.dropWhile isWsChar).reverse

/-- Model of JS Number() coercion on strings: whitespace-trimmed empty
string is 0; otherwise the whole trimmed string must be a numeric
literal; none models NaN. -/
def jsNumber (s : String) : Option ℚ :=
  let t := trimChars s.data
  if t.isEmpty then some 0
  else
    match parseNumCore t with
    | some (q, []) => some q
    | _ => none

/-- Model of `val.replace(/[$,]/g, '')`: remove every dollar sign and
comma character. -/
def stripCurrency (s : String) : String :=
  ⟨s.data.filter (fun c => !(c == '$' || c == ','))⟩

/-- Model of JS String.prototype.trim (ASCII whitespace fragment). -/
def strTrim (s : String) : String := ⟨trimChars s.data⟩

/-- ASCII lowercasing of one character, as toLowerCase acts on the data. -/
def lowerChar (c : Char) : Char :=
  if 65 ≤ c.toNat && c.toNat ≤ 90 then Char.ofNat (c.toNat + 32) else c

/-- Model of JS String.prototype.toLowerCase (ASCII fragment). -/
def strLower (s : String) : String := ⟨s.data.map lowerChar⟩

/-- ASCII uppercasing of one character, as toUpperCase acts on the data. -/
def upperChar (c : Char) : Char :=
  if 97 ≤ c.toNat && c.toNat ≤ 122 then Char.ofNat (c.toNat - 32) else c

/-- Model of JS String.prototype.toUpperCase (ASCII fragment). -/
def strUpper (s : String) : String := ⟨s.data.map upperChar⟩

/-- Model of `s.replace(/\//g, '_')`: replace every slash by an
underscore. -/
def slashToUnderscore (s : String) : String :=
  ⟨s.data.map (fun c => if c == '/' then '_' else c)⟩

/-- Year of the civil (UTC) calendar date containing the given epoch
millisecond value, the calendar computation JS Date.getFullYear performs
(modelled in UTC).  Standard civil-from-days algorithm. -/
def getFullYear (ms : Int) : Int :=
  let z := ms.fdiv 86400000 + 719468
  let era := z.fdiv 146097
  let doe := z - era * 146097
  let yoe := (doe - doe.fdiv 1460 + doe.fdiv 36524 - doe.fdiv 146096).fdiv 365
  let y := yoe + era * 400
  let doy := doe - (365 * yoe + yoe.fdiv 4 - yoe.fdiv 100)
  let mp := (5 * doy + 2).fdiv 153
  let m := mp + (if mp < 10 then 3 else -9)
  if m ≤ 2 then y + 1 else y


/-- The inline price coercion of processData (src/app.js lines 146-155)
and of uploadDataToFirestore (lines 674-676): a string is stripped of
currency characters and parsed with parseFloat; afterwards a null,
undefined or NaN value is replaced by 0 (isNaN is true for every
non-numeric object, so the other case also becomes 0). -/
def coercePrice : JVal → ℚ
  | JVal.num q => q
  | JVal.nan => 0
  | JVal.str s => (parseFloat (stripCurrency s)).getD 0
  | JVal.nullv => 0
  | JVal.other => 0

/-- The parsePrice helper (src/app.js lines 138-142 and 637-641):
a number (NaN included, since typeof NaN is number) is returned as-is;
a string is stripped of currency characters and handed to parseFloat,
whose NaN result is NOT replaced; every other type yields 0. -/
def parsePrice : JVal → JVal
  | JVal.num q => JVal.num q
  | JVal.nan => JVal.nan
  | JVal.str s =>
    match parseFloat (stripCurrency s) with
    | some q => JVal.num q
    | none => JVal.nan
  | JVal.nullv => JVal.num 0
  | JVal.other => JVal.num 0

/-- JS `a || b` on an optional string: a present non-empty string is
truthy, a missing value or the empty string falls through to b. -/
def jsOrS (a : Option String) (b : String) : String :=
  match a with
  | some s => if s = "" then b else s
  | none => b

/-- JS `a || b` where both sides are optional strings (used for the
field-alias chains of the upload path). -/
def jsOrOpt (a b : Option String) : Option String :=
  match a with
  | some s => if s = "" then b else some s
  | none => b

/-- JS `a || 0` on an optional number (0 is falsy, so the default is
the same value). -/
def jsOrQ (a : Option ℚ) : ℚ := a.getD 0

/-- The normalizeYesNo helper (src/app.js lines 650-654): falsy input
gives No, otherwise trimmed uppercased Y/YES give Yes and anything else
gives No. -/
def normalizeYesNo (v : Option String) : String :=
  match v with
  | none => "No"
  | some s =>
    if s = "" then "No"
    else
      let u := strUpper (strTrim s)
      if u = "Y" || u = "YES" then "Yes" else "No"

/-- The normalizeCityLimits helper (src/app.js lines 656-662): falsy
input gives Unknown, trimmed uppercased Y/YES give Yes, N/NO give No,
anything else Unknown. -/
def normalizeCityLimits (v : Option String) : String :=
  match v with
  | none => "Unknown"
  | some s =>
    if s = "" then "Unknown"
    else
      let u := strUpper (strTrim s)
      if u = "Y" || u = "YES" then "Yes"
      else if u = "N" || u = "NO" then "No"
      else "Unknown"

/-- A raw row of the dashboard query source, after the robust date
parsing of fetchDataFromFirestore (src/app.js lines 106-115): the date
field holds the epoch milliseconds of the parsed date, or none when the
date did not coerce to a valid calendar date.  The remaining fields are
the untyped Firestore document fields, none when absent. -/
structure FsRow where
  date : Option Int
  price : JVal
  address : Option String
  pricePerSqFt : Option ℚ
  sqFt : Option ℚ
  daysOnMarket : Option ℚ
  city : Option String
  subdivision : Option String
  beds : Option ℚ
  baths : Option ℚ
  newConstruction : Option String
  insideCityLimits : Option String
deriving DecidableEq

/-- The Canonical Record built by processData (src/app.js lines
157-171); date is the epoch value in milliseconds. -/
structure CanonRecord where
  address : String
  date : Int
  price : ℚ
  pricePerSqFt : ℚ
  sqFt : ℚ
  daysOnMarket : ℚ
  city : String
  subdivision : String
  beds : ℚ
  baths : ℚ
  year : Int
  newConstruction : String
  insideCityLimits : String
deriving DecidableEq

/-- The mapping step of processData (src/app.js lines 144-171); for a
row whose date was invalid the (never retained) record uses epoch 0. -/
def toCanon (row : FsRow) : CanonRecord :=
  let ms := row.date.getD 0
  { address := jsOrS row.address ""
    date := ms
    price := coercePrice row.price
    pricePerSqFt := jsOrQ row.pricePerSqFt
    sqFt := jsOrQ row.sqFt
    daysOnMarket := jsOrQ row.daysOnMarket
    city := jsOrS row.city "Unknown"
    subdivision := jsOrS row.subdivision ""
    beds := jsOrQ row.beds
    baths := jsOrQ row.baths
    year := getFullYear ms
    newConstruction := jsOrS row.newConstruction "No"
    insideCityLimits := jsOrS row.insideCityLimits "Unknown" }

/-- The retention predicate of processData line 172 on a mapped record:
`!isNaN(d.price) && d.price > 0 && d.date.getFullYear() > 2000` (the
isNaN conjunct is always true after the coercion, which never leaves
NaN in the price field). -/
def retainPred (d : CanonRecord) : Bool :=
  decide (0 < d.price) && decide (2000 < d.year)

/-- The normalization stage: fetchDataFromFirestore keeps only rows
with a valid date (line 114), processData maps them to canonical
records and filters by retainPred (lines 144-172). -/
def normalizeRecords (rows : List FsRow) : List CanonRecord :=
  ((rows.filter (fun r => r.date.isSome)).map toCanon).filter retainPred

/-- The acceptance condition of the claim, stated on the raw row: the
date coerces to a valid calendar date, the coerced price is strictly
positive, and the year derived from the date is strictly greater than
2000. -/
def acceptRow (row : FsRow) : Bool :=
  row.date.isSome && decide (0 < coercePrice row.price) &&
    decide (2000 < getFullYear (row.date.getD 0))

/-- The dedup fingerprint of src/app.js line 181:
`${d.date.getTime()}-${d.address.trim().toLowerCase()}-${d.price}`. -/
def fingerprint (d : CanonRecord) : String :=
  toString d.date ++ "-" ++ strLower (strTrim d.address) ++ "-" ++ toString d.price

/-- The duplicate scan of src/app.js lines 178-186, with the `seen` set
of already-encountered fingerprints made explicit. -/
def dedupGo (seen : List String) : List CanonRecord → List CanonRecord
  | [] => []
  | r :: rs =>
    if fingerprint r ∈ seen then dedupGo seen rs
    else r :: dedupGo (fingerprint r :: seen) rs

/-- In-session deduplication: scan in input order, keep a record only
when its fingerprint has not been seen before. -/
def dedup (l : List CanonRecord) : List CanonRecord := dedupGo [] l

/-- The full processData pipeline on fetched rows: normalization
followed by deduplication. -/
def processData (rows : List FsRow) : List CanonRecord :=
  dedup (normalizeRecords rows)

/-- A value held in a filter-state array: the year arrays hold numbers,
the other three hold strings, but handleFilterChange can put a number
into any of them. -/
inductive FilterVal where
  | num (q : ℚ)
  | str (s : String)
deriving DecidableEq

/-- The filterState object of src/app.js lines 29-34. -/
structure FilterState where
  selectedYears : List FilterVal
  selectedCities : List FilterVal
  selectedNewConstruction : List FilterVal
  selectedCityLimits : List FilterVal
deriving DecidableEq

/-- The four filter dimensions. -/
inductive Dim where
  | year
  | city
  | newConstruction
  | cityLimits
deriving DecidableEq

/-- The checkbox-value coercion of handleFilterChange (src/app.js line
292): `if (!isNaN(parseFloat(val)) && isFinite(val)) val = parseFloat(val)`.
isFinite coerces the string with Number(); the value is reinterpreted
as a number whenever both parses succeed, regardless of which dimension
it belongs to. -/
def coerceCheckboxVal (s : String) : FilterVal :=
  if (parseFloat s).isSome && (jsNumber s).isSome then
    FilterVal.num ((parseFloat s).getD 0)
  else FilterVal.str s

/-- Toggling one value in one dimension array (src/app.js lines
294-298): checking pushes the value when absent, unchecking removes
every strictly-equal occurrence. -/
def toggleVal (set : List FilterVal) (v : FilterVal) (checked : Bool) : List FilterVal :=
  if checked then (if v ∈ set then set else set ++ [v])
  else set.filter (fun x => x ≠ v)

/-- handleFilterChange (src/app.js lines 289-301) restricted to its
state effect: coerce the checkbox value, then toggle it in the array of
the named dimension. -/
def handleFilterChange (st : FilterState) (d : Dim) (s : String) (checked : Bool) :
    FilterState :=
  let v := coerceCheckboxVal s
  match d with
  | Dim.year => { st with selectedYears := toggleVal st.selectedYears v checked }
  | Dim.city => { st with selectedCities := toggleVal st.selectedCities v checked }
  | Dim.newConstruction =>
    { st with selectedNewConstruction := toggleVal st.selectedNewConstruction v checked }
  | Dim.cityLimits => { st with selectedCityLimits := toggleVal st.selectedCityLimits v checked }

/-- The conjunctive filter of updateDashboard (src/app.js lines
330-337): a record passes when each of its four dimension values is a
member (under strict equality) of the corresponding selected array. -/
def updateDashboard (rs : List CanonRecord) (st : FilterState) : List CanonRecord :=
  rs.filter (fun d =>
    decide (FilterVal.num (d.year : ℚ) ∈ st.selectedYears) &&
    decide (FilterVal.str d.city ∈ st.selectedCities) &&
    decide (FilterVal.str d.newConstruction ∈ st.selectedNewConstruction) &&
    decide (FilterVal.str d.insideCityLimits ∈ st.selectedCityLimits))

/-- The median helper defined identically in updateKPIs, renderTrendChart
and renderCityChart (src/app.js lines 352-357): numeric ascending sort,
middle element for odd length, average of the two middle elements for
even length, 0 for the empty array. -/
def median (l : List ℚ) : ℚ :=
  if l = [] then 0
  else
    let sorted := List.insertionSort (fun a b => a ≤ b) l
    let mid := sorted.length / 2
    if sorted.length % 2 ≠ 0 then sorted.getD mid 0
    else (sorted.getD (mid - 1) 0 + sorted.getD mid 0) / 2

/-- Bucket lower bound of renderDistChart (src/app.js line 431):
`Math.floor(d.price / 50000) * 50000`. -/
def binOf (p : ℚ) : Int := ⌊p / 50000⌋ * 50000

/-- One step of `bins[key] = (bins[key] || 0) + 1` on a JS object whose
keys are kept in insertion order: increment in place when the key is
present, append a fresh entry otherwise.  The object key is the label
string derived injectively from the bucket lower bound, so the bucket
lower bound itself serves as the key here. -/
def bumpBin : List (Int × Nat) → Int → List (Int × Nat)
  | [], b => [(b, 1)]
  | (k, c) :: t, b => if k = b then (k, c + 1) :: t else (k, c) :: bumpBin t b

/-- The bin-building loop of renderDistChart (src/app.js lines 429-434). -/
def rawBins (data : List CanonRecord) : List (Int × Nat) :=
  data.foldl (fun acc d => bumpBin acc (binOf d.price)) []

/-- Comparison used for the bucket sort of renderDistChart lines
436-440: the comparator parses the label prefix back to `bin / 1000`,
which orders buckets by their numeric lower bound. -/
def binLe (a b : Int × Nat) : Prop := a.1 ≤ b.1

instance : DecidableRel binLe := fun a b => inferInstanceAs (Decidable (a.1 ≤ b.1))

instance : IsTotal (Int × Nat) binLe := ⟨fun a b => le_total a.1 b.1⟩

instance : IsTrans (Int × Nat) binLe := ⟨fun _ _ _ h1 h2 => le_trans h1 h2⟩

/-- The sparse price histogram of renderDistChart: buckets containing
at least one record, sorted ascending by numeric lower bound, each with
its record count. -/
def priceHistogram (data : List CanonRecord) : List (Int × Nat) :=
  List.insertionSort binLe (rawBins data)

/-- A raw upload row as produced by the spreadsheet parser, with the
source-convention field names of uploadDataToFirestore (src/app.js
lines 673-698).  closedDate holds the epoch milliseconds of
parseDate on the Closed Date key, none when the date is invalid or the
field absent. -/
structure UpRow where
  addr : Option String
  streetName : Option String
  streetAddress : Option String
  closedDate : Option Int
  price : JVal
  ppsf : JVal
  sqFt : Option ℚ
  daysOnMarket : Option ℚ
  city : Option String
  subdivision : Option String
  beds : Option ℚ
  baths : Option ℚ
  newConstruction : Option String
  insideCityLimits : Option String
  insideCityLimit : Option String
deriving DecidableEq

/-- The plain record object built by uploadDataToFirestore lines
684-699 (the JSON sanitization round-trip of lines 701-707 is the
identity on these fields). -/
structure CleanRec where
  address : String
  date : Int
  price : ℚ
  pricePerSqFt : ℚ
  sqFt : ℚ
  daysOnMarket : ℚ
  city : String
  subdivision : String
  beds : ℚ
  baths : ℚ
  year : Int
  newConstruction : String
  insideCityLimits : String
  uniqueKey : String
deriving DecidableEq

/-- JS `x || 0` on a number-or-NaN value (0 and NaN are falsy). -/
def jvalOrZero (v : JVal) : ℚ :=
  match v with
  | JVal.num q => q
  | _ => 0

/-- The record constructor of uploadDataToFirestore lines 684-699 for a
row whose closed date parsed to epoch ms.  The uniqueKey of line 698 is
computed from the raw Address key only, while the address field falls
back through Address, Street Name, Street Address. -/
def mkCleanRec (row : UpRow) (ms : Int) : CleanRec :=
  let dimPrice := coercePrice row.price
  { address := strTrim (jsOrS (jsOrOpt (jsOrOpt row.addr row.streetName) row.streetAddress) "")
    date := ms
    price := dimPrice
    pricePerSqFt := jvalOrZero (parsePrice row.ppsf)
    sqFt := jsOrQ row.sqFt
    daysOnMarket := jsOrQ row.daysOnMarket
    city := strTrim (jsOrS row.city "Unknown")
    subdivision := strTrim (jsOrS row.subdivision "")
    beds := jsOrQ row.beds
    baths := jsOrQ row.baths
    year := getFullYear ms
    newConstruction := normalizeYesNo row.newConstruction
    insideCityLimits := normalizeCityLimits (jsOrOpt row.insideCityLimits row.insideCityLimit)
    uniqueKey :=
      toString ms ++ "-" ++ strLower (strTrim (jsOrS row.addr "")) ++ "-" ++ toString dimPrice }

/-- Normalization of one upload row: rows with an invalid closed date
are skipped (line 681). -/
def cleanRecord (row : UpRow) : Option CleanRec :=
  match row.closedDate with
  | none => none
  | some ms => some (mkCleanRec row ms)

/-- The retention filter of line 709: price strictly positive and year
strictly greater than 2000. -/
def uploadRetain (d : CleanRec) : Bool :=
  decide (0 < d.price) && decide (2000 < d.year)

/-- The cleaned upload sequence (lines 673-709). -/
def cleanRecords (rows : List UpRow) : List CleanRec :=
  (rows.filterMap cleanRecord).filter uploadRetain

/-- Document id sanitization of line 726: every slash in the uniqueKey
replaced by an underscore. -/
def safeKey (r : CleanRec) : String := slashToUnderscore r.uniqueKey

/-- One document-store write `batch.set(docRef, record)` keyed by a
document id: overwrite in place when the id exists, append otherwise. -/
def setStore (store : List (String × CleanRec)) (k : String) (r : CleanRec) :
    List (String × CleanRec) :=
  if store.any (fun e => e.1 == k) then
    store.map (fun e => if e.1 == k then (k, r) else e)
  else store ++ [(k, r)]

/-- The batch upload loop of lines 720-731 as its net effect on the
store: chunks of 400 are committed strictly sequentially and writes
within a chunk are applied in order, so the store effect equals the
sequential fold of single writes, each record keyed by its own
sanitized uniqueKey. -/
def uploadDataToFirestore (rows : List UpRow) (store0 : List (String × CleanRec)) :
    List (String × CleanRec) :=
  (cleanRecords rows).foldl (fun st r => setStore st (safeKey r) r) store0

/-- The field names of the stored record object literal (src/app.js
lines 684-698), in source order. -/
def storedFieldNames : List String :=
  ["address", "date", "price", "pricePerSqFt", "sqFt", "daysOnMarket", "city",
   "subdivision", "beds", "baths", "year", "newConstruction", "insideCityLimits",
   "uniqueKey"]

/-- The acceptance condition of the upload normalizer, stated on the
raw upload row: valid closed date, strictly positive coerced price,
derived year strictly greater than 2000. -/
def uploadAccept (row : UpRow) : Bool :=
  row.closedDate.isSome && decide (0 < coercePrice row.price) &&
    decide (2000 < getFullYear (row.closedDate.getD 0))

/-- A valid query row dated 2001-06-15 UTC with price $200,000. -/
def rowOk : FsRow :=
  { date := some 992563200000, price := JVal.str "$200,000", address := some "1 Main St",
    pricePerSqFt := none, sqFt := none, daysOnMarket := none, city := some "Conway",
    subdivision := none, beds := none, baths := none, newConstruction := none,
    insideCityLimits := none }

/-- The same row dated 2000-06-15 UTC. -/
def row2000 : FsRow := { rowOk with date := some 961027200000 }

/-- The same row with an unparsable price string. -/
def rowBadPrice : FsRow := { rowOk with price := JVal.str "abc" }

/-- The same row with price 0. -/
def rowZeroPrice : FsRow := { rowOk with price := JVal.num 0 }

/-- The same row with a negative price. -/
def rowNegPrice : FsRow := { rowOk with price := JVal.num (-5) }

/-- The same row with an invalid date. -/
def rowBadDate : FsRow := { rowOk with date := none }

/-- A canonical record whose city is the numeric-looking string 2020. -/
def canon2020 : CanonRecord :=
  { address := "1 Main St", date := 992563200000, price := 200000, pricePerSqFt := 0,
    sqFt := 0, daysOnMarket := 0, city := "2020", subdivision := "", beds := 0, baths := 0,
    year := 2021, newConstruction := "No", insideCityLimits := "Unknown" }

/-- A filter state in which every observed value of canon2020 is
selected (the load-time default for a data set holding canon2020). -/
def st2020 : FilterState :=
  { selectedYears := [FilterVal.num 2021]
    selectedCities := [FilterVal.str "2020"]
    selectedNewConstruction := [FilterVal.str "Yes", FilterVal.str "No"]
    selectedCityLimits := [FilterVal.str "Unknown"] }

/-- A canonical record with the given price (all other fields fixed),
for the histogram example. -/
def recP (p : ℚ) : CanonRecord :=
  { address := "", date := 0, price := p, pricePerSqFt := 0, sqFt := 0, daysOnMarket := 0,
    city := "Unknown", subdivision := "", beds := 0, baths := 0, year := 2021,
    newConstruction := "No", insideCityLimits := "Unknown" }

/-- An upload row: 1 Main St, closed 2001-06-15 UTC, price $200,000,
1500 square feet. -/
def upA : UpRow :=
  { addr := some "1 Main St", streetName := none, streetAddress := none,
    closedDate := some 992563200000, price := JVal.str "$200,000", ppsf := JVal.num 0,
    sqFt := some 1500, daysOnMarket := none, city := some "Conway", subdivision := none,
    beds := none, baths := none, newConstruction := none, insideCityLimits := none,
    insideCityLimit := none }

/-- The same sale with a different square footage. -/
def upB : UpRow := { upA with sqFt := some 1600 }

/-- The same upload row dated 2000-06-15 UTC. -/
def up2000 : UpRow := { upA with closedDate := some 961027200000 }

/-- An upload row with no Address key, only a Street Name. -/
def up9a : UpRow :=
  { addr := none, streetName := some "10 Oak St", streetAddress := none,
    closedDate := some 992563200000, price := JVal.num 250000, ppsf := JVal.num 0,
    sqFt := some 1200, daysOnMarket := none, city := some "Conway", subdivision := none,
    beds := none, baths := none, newConstruction := none, insideCityLimits := none,
    insideCityLimit := none }

/-- A different sale (different street name) that also lacks an
Address key but shares date and price with up9a. -/
def up9b : UpRow := { up9a with streetName := some "99 Pine Ave", sqFt := some 2400 }

/-- Lookup of a bucket count by bucket lower bound. -/
def lkBin : List (Int × Nat) → Int → Option Nat
  | [], _ => none
  | e :: t, b => if e.1 = b then some e.2 else lkBin t b

/-- Number of records of the data whose price falls in the bucket with
the given lower bound. -/
def cntBin (data : List CanonRecord) (b : Int) : Nat :=
  (data.filter (fun d => decide (binOf d.price = b))).length

@[simp] lemma toCanon_price (row : FsRow) : (toCanon row).price = coercePrice row.price := rfl

@[simp] lemma toCanon_year (row : FsRow) :
    (toCanon row).year = getFullYear (row.date.getD 0) := rfl

@[simp] lemma mkCleanRec_price (row : UpRow) (ms : Int) :
    (mkCleanRec row ms).price = coercePrice row.price := rfl

@[simp] lemma mkCleanRec_year (row : UpRow) (ms : Int) :
    (mkCleanRec row ms).year = getFullYear ms := rfl

@[simp] lemma mkCleanRec_uniqueKey (row : UpRow) (ms : Int) :
    (mkCleanRec row ms).uniqueKey =
      toString ms ++ "-" ++ strLower (strTrim (jsOrS row.addr "")) ++ "-" ++
        toString (coercePrice row.price) := rfl

lemma normalizeRecords_eq (rows : List FsRow) :
    normalizeRecords rows = (rows.filter acceptRow).map toCanon := by
  unfold normalizeRecords
  rw [List.filter_map, List.filter_filter]
  apply congrArg (List.map toCanon)
  apply List.filter_congr
  intro r _
  cases hd : r.date with
  | none => simp [retainPred, acceptRow, Function.comp, hd]
  | some ms => simp [retainPred, acceptRow, Function.comp, hd, Bool.and_comm]

lemma cleanRecords_eq (rows : List UpRow) :
    cleanRecords rows =
      (rows.filter uploadAccept).map (fun r => mkCleanRec r (r.closedDate.getD 0)) := by
  induction rows with
  | nil => rfl
  | cons r rs ih =>
    cases hd : r.closedDate with
    | none =>
      simp only [cleanRecords, List.filterMap_cons, cleanRecord, hd, List.filter_cons,
        uploadAccept, Option.isSome_none, Bool.false_and, Bool.and_self] at *
      simpa using ih
    | some ms =>
      have hc : cleanRecord r = some (mkCleanRec r ms) := by simp [cleanRecord, hd]
      have hacc : uploadAccept r =
          (decide ((0 : ℚ) < coercePrice r.price) && decide (2000 < getFullYear ms)) := by
        simp [uploadAccept, hd]
      have hret : uploadRetain (mkCleanRec r ms) =
          (decide ((0 : ℚ) < coercePrice r.price) && decide (2000 < getFullYear ms)) := rfl
      have ih2 : List.filter uploadRetain (List.filterMap cleanRecord rs) =
          List.map (fun r => mkCleanRec r (r.closedDate.getD 0))
            (List.filter uploadAccept rs) := ih
      simp only [cleanRecords, List.filterMap_cons, hc, List.filter_cons, hret, hacc]
      by_cases h1 : (0 : ℚ) < coercePrice r.price <;>
        by_cases h2 : 2000 < getFullYear ms <;>
          simp [h1, h2, hd, ih2]

/-- C1.  Normalization acceptance policy: a raw row is retained in the
canonical record set exactly when its date is a valid calendar date,
its coerced price is strictly positive and the year derived from the
date exceeds 2000 — on both the dashboard path (processData) and the
upload path (uploadDataToFirestore); a row dated in 2001 is retained, a
row dated in 2000 is rejected, and rows with unparsable, zero or
negative price are dropped rather than zero-filled. -/
theorem C1_normalization_policy :
    (∀ rows : List FsRow, normalizeRecords rows = (rows.filter acceptRow).map toCanon) ∧
    (∀ rows : List UpRow,
      cleanRecords rows =
        (rows.filter uploadAccept).map (fun r => mkCleanRec r (r.closedDate.getD 0))) ∧
    acceptRow rowOk = true ∧
    acceptRow row2000 = false ∧
    acceptRow rowBadPrice = false ∧
    acceptRow rowZeroPrice = false ∧
    acceptRow rowNegPrice = false ∧
    acceptRow rowBadDate = false ∧
    normalizeRecords [rowOk] = [toCanon rowOk] ∧
    normalizeRecords [row2000, rowBadPrice] = [] ∧
    uploadAccept upA = true ∧
    uploadAccept up2000 = false :=
  ⟨normalizeRecords_eq, cleanRecords_eq, by decide, by decide, by decide, by decide,
    by decide, by decide, by decide, by decide, by decide, by decide⟩

/-- C4 counterexample: parsePrice on the unparsable string abc returns
the NaN sentinel, not 0 as the claim states. -/
theorem C4_counterexample :
    parsePrice (JVal.str "abc") = JVal.nan ∧ JVal.nan ≠ JVal.num 0 := by decide

/-- C4 as amended: parsePrice returns numeric input unchanged (NaN
included, being of number type); a string is stripped of dollar signs
and commas and parsed as a real number, an unparsable string yielding
NaN — not 0; any other type yields 0.  It is a total function. -/
theorem C4_parsePrice_amended :
    (∀ q : ℚ, parsePrice (JVal.num q) = JVal.num q) ∧
    parsePrice JVal.nan = JVal.nan ∧
    (∀ s q, parseFloat (stripCurrency s) = some q → parsePrice (JVal.str s) = JVal.num q) ∧
    (∀ s, parseFloat (stripCurrency s) = none → parsePrice (JVal.str s) = JVal.nan) ∧
    parsePrice JVal.nullv = JVal.num 0 ∧
    parsePrice JVal.other = JVal.num 0 ∧
    parsePrice (JVal.str "$200,000") = JVal.num 200000 := by
  refine ⟨fun q => rfl, rfl, fun s q h => ?_, fun s h => ?_, rfl, rfl, by decide⟩
  · simp [parsePrice, h]
  · simp [parsePrice, h]

/-- C4 witness: the amended theorem applied at the concrete unparsable
string abc. -/
theorem C4_witness : parsePrice (JVal.str "abc") = JVal.nan :=
  C4_parsePrice_amended.2.2.2.1 "abc" (by decide)

lemma dedupGo_sublist (seen : List String) (l : List CanonRecord) :
    (dedupGo seen l).Sublist l := by
  induction l generalizing seen with
  | nil => simp [dedupGo]
  | cons r rs ih =>
    rw [dedupGo]
    split
    · exact (ih seen).cons r
    · exact (ih (fingerprint r :: seen)).cons₂ r

lemma dedupGo_seen_excluded (seen : List String) (l : List CanonRecord) :
    ∀ r ∈ dedupGo seen l, fingerprint r ∉ seen := by
  induction l generalizing seen with
  | nil => simp [dedupGo]
  | cons h t ih =>
    rw [dedupGo]
    split
    · exact ih seen
    · intro r hr
      rcases List.mem_cons.mp hr with heq | hmem
      · subst heq; assumption
      · have := ih (fingerprint h :: seen) r hmem
        exact fun hin => this (List.mem_cons_of_mem _ hin)

lemma dedupGo_fps_nodup (seen : List String) (l : List CanonRecord) :
    ((dedupGo seen l).map fingerprint).Nodup := by
  induction l generalizing seen with
  | nil => simp [dedupGo]
  | cons h t ih =>
    rw [dedupGo]
    split
    · exact ih seen
    · rw [List.map_cons, List.nodup_cons]
      refine ⟨?_, ih (fingerprint h :: seen)⟩
      intro hin
      rcases List.mem_map.mp hin with ⟨x, hx, hfx⟩
      exact dedupGo_seen_excluded _ _ x hx (hfx ▸ List.mem_cons_self _ _)

lemma dedupGo_mem_iff (seen : List String) (l : List CanonRecord) (r : CanonRecord) :
    r ∈ dedupGo seen l ↔
      fingerprint r ∉ seen ∧
        ∃ l1 l2, l = l1 ++ r :: l2 ∧ ∀ x ∈ l1, fingerprint x ≠ fingerprint r := by
  induction l generalizing seen with
  | nil =>
    simp only [dedupGo, List.not_mem_nil, false_iff, not_and]
    rintro - ⟨l1, l2, hsplit, -⟩
    exact List.append_ne_nil_of_right_ne_nil l1 (List.cons_ne_nil r l2) hsplit.symm
  | cons h t ih =>
    rw [dedupGo]
    split
    case isTrue hin =>
      rw [ih seen]
      constructor
      · rintro ⟨hns, l1, l2, hsplit, hne⟩
        exact ⟨hns, h :: l1, l2, by rw [hsplit, List.cons_append], by
          intro x hx
          rcases List.mem_cons.mp hx with heq | hmem
          · subst heq; intro hfp; exact hns (hfp ▸ hin)
          · exact hne x hmem⟩
      · rintro ⟨hns, l1, l2, hsplit, hne⟩
        cases l1 with
        | nil =>
          simp only [List.nil_append, List.cons.injEq] at hsplit
          exact absurd (hsplit.1 ▸ hin) hns
        | cons a l1 =>
          rw [List.cons_append, List.cons.injEq] at hsplit
          exact ⟨hns, l1, l2, hsplit.2, fun x hx => hne x (List.mem_cons_of_mem a hx)⟩
    case isFalse hnin =>
      constructor
      · intro hmem
        rcases List.mem_cons.mp hmem with heq | hrec
        · subst heq
          exact ⟨hnin, [], t, rfl, by simp⟩
        · obtain ⟨hns, l1, l2, hsplit, hne⟩ := (ih (fingerprint h :: seen)).mp hrec
          have hfh : fingerprint h ≠ fingerprint r :=
            fun hfp => hns (hfp ▸ List.mem_cons_self _ _)
          refine ⟨fun hin => hns (List.mem_cons_of_mem _ hin), h :: l1, l2,
            by rw [hsplit, List.cons_append], ?_⟩
          intro x hx
          rcases List.mem_cons.mp hx with heq | hmem
          · subst heq; exact hfh
          · exact hne x hmem
      · rintro ⟨hns, l1, l2, hsplit, hne⟩
        cases l1 with
        | nil =>
          simp only [List.nil_append, List.cons.injEq] at hsplit
          exact hsplit.1 ▸ List.mem_cons_self _ _
        | cons a l1 =>
          rw [List.cons_append, List.cons.injEq] at hsplit
          have hfh : fingerprint h ≠ fingerprint r := hsplit.1 ▸ hne a (List.mem_cons_self a l1)
          refine List.mem_cons_of_mem h ((ih (fingerprint h :: seen)).mpr ⟨?_, l1, l2,
            hsplit.2, fun x hx => hne x (List.mem_cons_of_mem a hx)⟩)
          intro hin
          rcases List.mem_cons.mp hin with heq | hmem
          · exact hfh heq.symm
          · exact hns hmem

lemma dedupGo_idem (seen : List String) (l : List CanonRecord) :
    dedupGo seen (dedupGo seen l) = dedupGo seen l := by
  induction l generalizing seen with
  | nil => rfl
  | cons h t ih =>
    rw [dedupGo]
    split
    case isTrue hin => exact ih seen
    case isFalse hnin =>
      rw [dedupGo, if_neg hnin, ih (fingerprint h :: seen)]

/-- C3.  Deduplication keeps, for each fingerprint (epoch milliseconds,
lowercased trimmed address and coerced price joined in that fixed
order), exactly the first record of the input and discards every later
record with the same fingerprint, preserving relative order (the output
is a subsequence of the input whose fingerprints are pairwise
distinct, and a record is in the output exactly when no earlier input
record shares its fingerprint); the operation is idempotent. -/
theorem C3_dedup_first_kept_idempotent (l : List CanonRecord) :
    (dedup l).Sublist l ∧
    ((dedup l).map fingerprint).Nodup ∧
    (∀ r : CanonRecord, r ∈ dedup l ↔
      ∃ l1 l2, l = l1 ++ r :: l2 ∧ ∀ x ∈ l1, fingerprint x ≠ fingerprint r) ∧
    dedup (dedup l) = dedup l := by
  refine ⟨dedupGo_sublist [] l, dedupGo_fps_nodup [] l, fun r => ?_, dedupGo_idem [] l⟩
  rw [dedup, dedupGo_mem_iff]
  simp

/-- C3 witness: the theorem applied to a concrete two-element list of
identical records. -/
theorem C3_witness :
    dedup (dedup [canon2020, canon2020]) = dedup [canon2020, canon2020] :=
  (C3_dedup_first_kept_idempotent [canon2020, canon2020]).2.2.2

/-- C6.  Conjunctive filtering: updateDashboard returns the ordered
subsequence of the records whose year, city, newConstruction and
insideCityLimits values are each members of the corresponding selected
array (logical AND of all four); when the array of any dimension is empty,
the result is empty regardless of the other three. -/
theorem C6_conjunctive_filter (rs : List CanonRecord) (st : FilterState) :
    (updateDashboard rs st).Sublist rs ∧
    (∀ d : CanonRecord, d ∈ updateDashboard rs st ↔
      d ∈ rs ∧ FilterVal.num (d.year : ℚ) ∈ st.selectedYears ∧
        FilterVal.str d.city ∈ st.selectedCities ∧
        FilterVal.str d.newConstruction ∈ st.selectedNewConstruction ∧
        FilterVal.str d.insideCityLimits ∈ st.selectedCityLimits) ∧
    ((st.selectedYears = [] ∨ st.selectedCities = [] ∨
        st.selectedNewConstruction = [] ∨ st.selectedCityLimits = []) →
      updateDashboard rs st = []) := by
  refine ⟨List.filter_sublist rs, fun d => ?_, fun hemp => ?_⟩
  · rw [updateDashboard, List.mem_filter]
    simp [and_assoc]
  · rw [updateDashboard, List.filter_eq_nil_iff]
    intro d _
    rcases hemp with h | h | h | h <;> simp [h]

/-- C6 witness: the theorem applied to a concrete record and a filter
state whose year dimension has been emptied. -/
theorem C6_witness :
    updateDashboard [canon2020] { st2020 with selectedYears := [] } = [] :=
  (C6_conjunctive_filter [canon2020] { st2020 with selectedYears := [] }).2.2 (Or.inl rfl)

/-- C7.  median returns 0 on the empty list; on a non-empty list it
returns the middle element of any ascending-sorted permutation of the
input when the count is odd, and the average of the two middle elements
when the count is even; in particular median [100] = 100,
median [100, 300] = 200 and median [] = 0. -/
theorem C7_median :
    median [] = 0 ∧
    median [100] = 100 ∧
    median [100, 300] = 200 ∧
    (∀ (l s : List ℚ), s.Perm l → s.Sorted (fun a b => a ≤ b) →
      (l.length % 2 = 1 → median l = s.getD (l.length / 2) 0) ∧
      (l.length % 2 = 0 → l ≠ [] →
        median l = (s.getD (l.length / 2 - 1) 0 + s.getD (l.length / 2) 0) / 2)) := by
  refine ⟨rfl, ?_, ?_, ?_⟩
  · rw [median, if_neg (by simp)]
    norm_num [List.insertionSort, List.orderedInsert]
  · rw [median, if_neg (by simp)]
    norm_num [List.insertionSort, List.orderedInsert]
  · intro l s hp hs
    have hsort : List.Sorted (fun a b : ℚ => a ≤ b)
        (List.insertionSort (fun a b => a ≤ b) l) :=
      List.sorted_insertionSort _ l
    have hperm : s.Perm (List.insertionSort (fun a b => a ≤ b) l) :=
      hp.trans (List.perm_insertionSort _ l).symm
    have hseq : s = List.insertionSort (fun a b => a ≤ b) l :=
      List.eq_of_perm_of_sorted hperm hs hsort
    constructor
    · intro hodd
      have hne : l ≠ [] := by
        intro h; subst h; simp at hodd
      rw [median, if_neg hne, hseq]
      simp only [List.length_insertionSort]
      rw [if_pos (by omega)]
    · intro heven hne
      rw [median, if_neg hne, hseq]
      simp only [List.length_insertionSort]
      rw [if_neg (by omega)]

/-- C7 witness: the even-count part of the theorem applied to the
concrete list [100, 300], which is its own sorted permutation. -/
theorem C7_witness :
    median [100, 300] = (List.getD [(100 : ℚ), 300] 0 0 + List.getD [(100 : ℚ), 300] 1 0) / 2 :=
  (C7_median.2.2.2 [100, 300] [100, 300] (List.Perm.refl _) (by decide)).2 (by decide) (by decide)

/-- C2 counterexample: handleFilterChange reinterprets the
numeric-looking city checkbox value 2020 as a number, and as a result
unchecking the city 2020 does NOT remove the visibility of the record
with that city — the filtered view still contains it, refuting the
claim that toggling that city adds/removes exactly that record. -/
theorem C2_counterexample :
    coerceCheckboxVal "2020" = FilterVal.num 2020 ∧
    updateDashboard [canon2020] (handleFilterChange st2020 Dim.city "2020" false) =
      [canon2020] := by
  constructor
  · decide
  · decide

/-- C2 as amended: handleFilterChange coerces any numeric-looking
checkbox value to a number before storing it, regardless of the
declared type of the dimension; hence for a record whose city is the
numeric-looking string 2020, unchecking that city leaves every string
occurrence of it in the allowed set (so the record stays visible),
while the array of the year dimension is untouched by the toggle (the
coerced value is only ever stored in the array of its own dimension, so it
is never compared against the year dimension). -/
theorem C2_untyped_coercion_amended (st : FilterState) (r : CanonRecord)
    (hcity : r.city = "2020") (hmem : FilterVal.str "2020" ∈ st.selectedCities) :
    coerceCheckboxVal "2020" = FilterVal.num 2020 ∧
    FilterVal.str "2020" ∈ (handleFilterChange st Dim.city "2020" false).selectedCities ∧
    (handleFilterChange st Dim.city "2020" false).selectedYears = st.selectedYears ∧
    (r ∈ updateDashboard [r] st →
      r ∈ updateDashboard [r] (handleFilterChange st Dim.city "2020" false)) := by
  have hc : coerceCheckboxVal "2020" = FilterVal.num 2020 := by decide
  have hkeep : FilterVal.str "2020" ∈
      (handleFilterChange st Dim.city "2020" false).selectedCities := by
    simp only [handleFilterChange, hc, toggleVal, if_neg Bool.false_ne_true]
    rw [List.mem_filter]
    exact ⟨hmem, by decide⟩
  refine ⟨hc, hkeep, rfl, fun hvis => ?_⟩
  rw [updateDashboard, List.mem_filter] at hvis ⊢
  refine ⟨hvis.1, ?_⟩
  have hv := hvis.2
  simp only [Bool.and_eq_true, decide_eq_true_eq] at hv ⊢
  exact ⟨⟨⟨hv.1.1.1, hcity ▸ hkeep⟩, hv.1.2⟩, hv.2⟩

/-- C2 witness: the amended theorem applied to the concrete record and
default filter state of the counterexample. -/
theorem C2_witness :
    coerceCheckboxVal "2020" = FilterVal.num 2020 ∧
    FilterVal.str "2020" ∈ (handleFilterChange st2020 Dim.city "2020" false).selectedCities ∧
    (handleFilterChange st2020 Dim.city "2020" false).selectedYears = st2020.selectedYears ∧
    (canon2020 ∈ updateDashboard [canon2020] st2020 →
      canon2020 ∈ updateDashboard [canon2020]
        (handleFilterChange st2020 Dim.city "2020" false)) :=
  C2_untyped_coercion_amended st2020 canon2020 (by decide) (by decide)

lemma lkBin_bump_self (acc : List (Int × Nat)) (b : Int) :
    lkBin (bumpBin acc b) b = some ((lkBin acc b).getD 0 + 1) := by
  induction acc with
  | nil =>
    show (if b = b then some 1 else (none : Option Nat)) = _
    rw [if_pos rfl]; rfl
  | cons e t ih =>
    obtain ⟨k, c⟩ := e
    simp only [bumpBin, lkBin]
    by_cases hk : k = b
    · rw [if_pos hk]
      show (if k = b then some (c + 1) else lkBin t b) = _
      rw [if_pos hk, if_pos hk]; rfl
    · rw [if_neg hk]
      show (if k = b then some c else lkBin (bumpBin t b) b) = _
      rw [if_neg hk, if_neg hk, ih]

lemma lkBin_bump_other (acc : List (Int × Nat)) (b b' : Int) (h : b' ≠ b) :
    lkBin (bumpBin acc b) b' = lkBin acc b' := by
  induction acc with
  | nil =>
    show (if b = b' then some 1 else (none : Option Nat)) = none
    rw [if_neg (fun he => h he.symm)]
  | cons e t ih =>
    obtain ⟨k, c⟩ := e
    simp only [bumpBin, lkBin]
    by_cases hk : k = b
    · rw [if_pos hk]
      show (if k = b' then some (c + 1) else lkBin t b') = _
      rw [if_neg (fun he => h (he.symm.trans hk)), if_neg (fun he => h (he.symm.trans hk))]
    · rw [if_neg hk]
      show (if k = b' then some c else lkBin (bumpBin t b) b') = _
      by_cases hk' : k = b'
      · rw [if_pos hk', if_pos hk']
      · rw [if_neg hk', if_neg hk', ih]

lemma keys_bump (acc : List (Int × Nat)) (b : Int) :
    (bumpBin acc b).map Prod.fst =
      if b ∈ acc.map Prod.fst then acc.map Prod.fst else acc.map Prod.fst ++ [b] := by
  induction acc with
  | nil => simp [bumpBin]
  | cons e t ih =>
    obtain ⟨k, c⟩ := e
    simp only [bumpBin, List.map_cons]
    by_cases hk : k = b
    · rw [if_pos hk, if_pos (List.mem_cons.mpr (Or.inl hk.symm))]
      simp
    · rw [if_neg hk]
      have hbk : b ∈ k :: t.map Prod.fst ↔ b ∈ t.map Prod.fst := by
        rw [List.mem_cons]
        exact or_iff_right (fun he => hk he.symm)
      by_cases hb : b ∈ t.map Prod.fst
      · rw [if_pos (hbk.mpr hb)]
        simp only [List.map_cons, ih, if_pos hb]
      · rw [if_neg (fun hmem => hb (hbk.mp hmem))]
        simp only [List.map_cons, ih, if_neg hb, List.cons_append]

lemma nodup_bump (acc : List (Int × Nat)) (b : Int)
    (h : (acc.map Prod.fst).Nodup) : ((bumpBin acc b).map Prod.fst).Nodup := by
  rw [keys_bump]
  by_cases hb : b ∈ acc.map Prod.fst
  · simpa [hb] using h
  · simp only [hb, if_false, List.nodup_append]
    exact ⟨h, List.nodup_singleton b, fun a ha hb' => hb ((List.mem_singleton.mp hb') ▸ ha)⟩

lemma lkBin_fold (data : List CanonRecord) : ∀ (acc : List (Int × Nat)) (b : Int),
    lkBin (data.foldl (fun a d => bumpBin a (binOf d.price)) acc) b =
      if (lkBin acc b).isSome ∨ 0 < cntBin data b then
        some ((lkBin acc b).getD 0 + cntBin data b)
      else none := by
  induction data with
  | nil =>
    intro acc b
    simp only [List.foldl_nil, cntBin, List.filter_nil, List.length_nil]
    cases lkBin acc b <;> simp
  | cons d ds ih =>
    intro acc b
    rw [List.foldl_cons]
    by_cases hb : binOf d.price = b
    · rw [hb, ih (bumpBin acc b) b, lkBin_bump_self]
      have hcnt : cntBin (d :: ds) b = cntBin ds b + 1 := by
        simp [cntBin, List.filter_cons, hb, Nat.add_comm]
      simp [hcnt, Nat.add_assoc, Nat.add_comm]
    · rw [ih (bumpBin acc (binOf d.price)) b, lkBin_bump_other acc _ b (fun h => hb h.symm)]
      have hcnt : cntBin (d :: ds) b = cntBin ds b := by
        simp [cntBin, List.filter_cons, hb]
      rw [hcnt]

lemma keys_fold_nodup (data : List CanonRecord) : ∀ acc : List (Int × Nat),
    (acc.map Prod.fst).Nodup →
      ((data.foldl (fun a d => bumpBin a (binOf d.price)) acc).map Prod.fst).Nodup := by
  induction data with
  | nil => intro acc h; simpa using h
  | cons d ds ih =>
    intro acc h
    rw [List.foldl_cons]
    exact ih _ (nodup_bump acc _ h)

lemma mem_iff_lkBin (l : List (Int × Nat)) (hnd : (l.map Prod.fst).Nodup)
    (b : Int) (c : Nat) : (b, c) ∈ l ↔ lkBin l b = some c := by
  induction l with
  | nil => simp [lkBin]
  | cons e t ih =>
    obtain ⟨k, c'⟩ := e
    rw [List.map_cons, List.nodup_cons] at hnd
    simp only [lkBin]
    by_cases hk : k = b
    · rw [if_pos hk]
      constructor
      · intro hmem
        rcases List.mem_cons.mp hmem with heq | hmem2
        · rw [Prod.mk.injEq] at heq
          rw [heq.2]
        · exact absurd (hk ▸ List.mem_map.mpr ⟨(b, c), hmem2, rfl⟩) hnd.1
      · intro hsome
        have hcc : c' = c := Option.some.inj hsome
        exact List.mem_cons.mpr (Or.inl (by rw [hk, hcc]))
    · rw [if_neg hk, ← ih hnd.2]
      constructor
      · intro hmem
        rcases List.mem_cons.mp hmem with heq | hmem2
        · exact absurd (congrArg Prod.fst heq).symm hk
        · exact hmem2
      · exact fun hmem2 => List.mem_cons_of_mem _ hmem2

lemma rawBins_nodup (data : List CanonRecord) :
    ((rawBins data).map Prod.fst).Nodup :=
  keys_fold_nodup data [] (by simp)

lemma rawBins_lkBin (data : List CanonRecord) (b : Int) :
    lkBin (rawBins data) b =
      if 0 < cntBin data b then some (cntBin data b) else none := by
  rw [rawBins, lkBin_fold data [] b]
  simp [lkBin]

/-- C8.  The sparse price histogram: every bucket in the output of
priceHistogram carries as its count exactly the number of records
whose price p satisfies floor(p / 50000) * 50000 = bucket lower bound,
and that count is strictly positive (zero-count buckets are absent);
the bucket of every record is present; buckets appear in strictly ascending
order of numeric lower bound; and on prices [10000, 40000, 60000] the
histogram is exactly [bucket 0 with count 2, bucket 50000 with count
1], with no 100000 bucket. -/
theorem C8_priceHistogram :
    (∀ data : List CanonRecord,
      (∀ b c, (b, c) ∈ priceHistogram data → c = cntBin data b ∧ 0 < c) ∧
      (∀ d ∈ data, ∃ c, (binOf d.price, c) ∈ priceHistogram data) ∧
      ((priceHistogram data).map Prod.fst).Sorted (fun a b => a < b)) ∧
    priceHistogram [recP 10000, recP 40000, recP 60000] = [(0, 2), (50000, 1)] := by
  constructor
  · intro data
    have hperm : (priceHistogram data).Perm (rawBins data) :=
      List.perm_insertionSort binLe (rawBins data)
    have hnd : ((priceHistogram data).map Prod.fst).Nodup :=
      ((hperm.map Prod.fst).nodup_iff).mpr (rawBins_nodup data)
    refine ⟨fun b c hmem => ?_, fun d hd => ?_, ?_⟩
    · have hmem2 : (b, c) ∈ rawBins data := hperm.mem_iff.mp hmem
      have := (mem_iff_lkBin (rawBins data) (rawBins_nodup data) b c).mp hmem2
      rw [rawBins_lkBin] at this
      by_cases hpos : 0 < cntBin data b
      · rw [if_pos hpos] at this
        have hc : c = cntBin data b := (Option.some.inj this).symm
        exact ⟨hc, hc ▸ hpos⟩
      · rw [if_neg hpos] at this; exact absurd this (by simp)
    · have hpos : 0 < cntBin data (binOf d.price) := by
        rw [cntBin]
        have : d ∈ data.filter (fun d' => decide (binOf d'.price = binOf d.price)) :=
          List.mem_filter.mpr ⟨hd, by simp⟩
        exact List.length_pos.mpr (List.ne_nil_of_mem this)
      refine ⟨cntBin data (binOf d.price), hperm.mem_iff.mpr ?_⟩
      rw [mem_iff_lkBin (rawBins data) (rawBins_nodup data), rawBins_lkBin, if_pos hpos]
    · have hsorted : List.Sorted binLe (priceHistogram data) :=
        List.sorted_insertionSort binLe (rawBins data)
      have hle : ((priceHistogram data).map Prod.fst).Pairwise (fun a b => a ≤ b) :=
        List.pairwise_map.mpr hsorted
      have hne : ((priceHistogram data).map Prod.fst).Pairwise (fun a b => a ≠ b) := hnd
      exact (hle.and hne).imp (fun h => lt_of_le_of_ne h.1 h.2)
  · have h1 : binOf 10000 = 0 := by
      rw [binOf]; norm_num
    have h2 : binOf 40000 = 0 := by
      rw [binOf]; norm_num
    have h3 : binOf 60000 = 50000 := by
      rw [binOf]
      have : ⌊(60000 : ℚ) / 50000⌋ = 1 := by norm_num
      rw [this]; norm_num
    simp [priceHistogram, rawBins, recP, h1, h2, h3, bumpBin,
      List.insertionSort, List.orderedInsert, binLe]

/-- C8 witness: the bucket-presence part of the theorem applied to the
record with price 10000 in the concrete three-record data set. -/
theorem C8_witness :
    ∃ c, (binOf (recP 10000).price, c) ∈
      priceHistogram [recP 10000, recP 40000, recP 60000] :=
  (C8_priceHistogram.1 [recP 10000, recP 40000, recP 60000]).2.1 (recP 10000) (by simp)

lemma upload_pair_collapse (r1 r2 : UpRow) (ms : Int)
    (h1 : r1.closedDate = some ms) (h2 : r2.closedDate = some ms)
    (hk : (mkCleanRec r1 ms).uniqueKey = (mkCleanRec r2 ms).uniqueKey)
    (hp : coercePrice r1.price = coercePrice r2.price)
    (hpos : 0 < coercePrice r2.price) (hyr : 2000 < getFullYear ms) :
    uploadDataToFirestore [r1, r2] [] =
      [(safeKey (mkCleanRec r2 ms), mkCleanRec r2 ms)] := by
  have hc1 : cleanRecord r1 = some (mkCleanRec r1 ms) := by simp [cleanRecord, h1]
  have hc2 : cleanRecord r2 = some (mkCleanRec r2 ms) := by simp [cleanRecord, h2]
  have hpos1 : 0 < coercePrice r1.price := hp ▸ hpos
  have hr1 : uploadRetain (mkCleanRec r1 ms) = true := by
    simp [uploadRetain, hpos1, hyr]
  have hr2 : uploadRetain (mkCleanRec r2 ms) = true := by
    simp [uploadRetain, hpos, hyr]
  have hcl : cleanRecords [r1, r2] = [mkCleanRec r1 ms, mkCleanRec r2 ms] := by
    simp [cleanRecords, List.filterMap_cons, hc1, hc2, List.filter_cons, hr1, hr2]
  have hsk : safeKey (mkCleanRec r1 ms) = safeKey (mkCleanRec r2 ms) := by
    rw [safeKey, safeKey, hk]
  rw [uploadDataToFirestore, hcl]
  simp only [List.foldl_cons, List.foldl_nil, hsk]
  simp [setStore]

/-- C5.  Upload storage idempotence: two upload rows with identical
date, identical raw Address and identical price (hence identical
uniqueKey) but possibly differing in every other field are written
under the same storage identifier, so uploading both yields exactly one
stored record whose fields are those of the later row. -/
theorem C5_upload_last_write_wins (r1 r2 : UpRow) (ms : Int)
    (h1 : r1.closedDate = some ms) (h2 : r2.closedDate = some ms)
    (ha : r1.addr = r2.addr) (hp : r1.price = r2.price)
    (hpos : 0 < coercePrice r2.price) (hyr : 2000 < getFullYear ms) :
    uploadDataToFirestore [r1, r2] [] =
      [(safeKey (mkCleanRec r2 ms), mkCleanRec r2 ms)] :=
  upload_pair_collapse r1 r2 ms h1 h2
    (by rw [mkCleanRec_uniqueKey, mkCleanRec_uniqueKey, ha, hp]) (by rw [hp]) hpos hyr

/-- C5 witness: two concrete rows sharing date, address and price but
with square footages 1500 and 1600 collapse to one stored record with
the fields of the later row. -/
theorem C5_witness :
    uploadDataToFirestore [upA, upB] [] =
      [(safeKey (mkCleanRec upB 992563200000), mkCleanRec upB 992563200000)] ∧
    (mkCleanRec upA 992563200000).sqFt ≠ (mkCleanRec upB 992563200000).sqFt :=
  ⟨C5_upload_last_write_wins upA upB 992563200000 rfl rfl rfl rfl (by decide) (by decide),
    by decide⟩

/-- C9.  The upload fingerprint (uniqueKey) is computed from the raw
Address key only, while the stored address field falls back through
Address, Street Name, Street Address; two rows lacking an Address key
with equal dates and equal coerced prices therefore share a uniqueKey
(with an empty address component) and collapse to one stored record,
even when their stored address fields differ. -/
theorem C9_uniqueKey_ignores_address_fallback (r1 r2 : UpRow) (ms : Int)
    (h1 : r1.closedDate = some ms) (h2 : r2.closedDate = some ms)
    (ha1 : r1.addr = none) (ha2 : r2.addr = none)
    (hp : coercePrice r1.price = coercePrice r2.price) :
    (mkCleanRec r1 ms).uniqueKey = (mkCleanRec r2 ms).uniqueKey ∧
    (0 < coercePrice r2.price → 2000 < getFullYear ms →
      uploadDataToFirestore [r1, r2] [] =
        [(safeKey (mkCleanRec r2 ms), mkCleanRec r2 ms)]) := by
  have hk : (mkCleanRec r1 ms).uniqueKey = (mkCleanRec r2 ms).uniqueKey := by
    rw [mkCleanRec_uniqueKey, mkCleanRec_uniqueKey, ha1, ha2, hp]
  exact ⟨hk, fun hpos hyr => upload_pair_collapse r1 r2 ms h1 h2 hk hp hpos hyr⟩

/-- C9 witness: two concrete rows with no Address key, street names
10 Oak St and 99 Pine Ave, equal dates and equal prices share a
uniqueKey and collapse to a single stored record although their stored
address fields differ. -/
theorem C9_witness :
    (mkCleanRec up9a 992563200000).uniqueKey = (mkCleanRec up9b 992563200000).uniqueKey ∧
    uploadDataToFirestore [up9a, up9b] [] =
      [(safeKey (mkCleanRec up9b 992563200000), mkCleanRec up9b 992563200000)] ∧
    (mkCleanRec up9a 992563200000).address ≠ (mkCleanRec up9b 992563200000).address :=
  ⟨(C9_uniqueKey_ignores_address_fallback up9a up9b 992563200000 rfl rfl rfl rfl rfl).1,
    (C9_uniqueKey_ignores_address_fallback up9a up9b 992563200000 rfl rfl rfl rfl rfl).2
      (by decide) (by decide),
    by decide⟩

lemma mem_setStore {e : String × CleanRec} {st : List (String × CleanRec)}
    {k : String} {r : CleanRec} (h : e ∈ setStore st k r) : e ∈ st ∨ e = (k, r) := by
  rw [setStore] at h
  split at h
  · rcases List.mem_map.mp h with ⟨a, ha, hae⟩
    by_cases hak : (a.1 == k) = true
    · rw [if_pos hak] at hae
      exact Or.inr hae.symm
    · rw [if_neg hak] at hae
      exact Or.inl (hae ▸ ha)
  · rcases List.mem_append.mp h with hl | hr
    · exact Or.inl hl
    · exact Or.inr (List.mem_singleton.mp hr)

lemma mem_uploadFold (recs : List CleanRec) :
    ∀ (st0 : List (String × CleanRec)) (e : String × CleanRec),
      e ∈ recs.foldl (fun st r => setStore st (safeKey r) r) st0 →
        e ∈ st0 ∨ ∃ r ∈ recs, e = (safeKey r, r) := by
  induction recs with
  | nil => intro st0 e h; exact Or.inl (by simpa using h)
  | cons r rs ih =>
    intro st0 e h
    rw [List.foldl_cons] at h
    rcases ih _ e h with h1 | h2
    · rcases mem_setStore h1 with ha | hb
      · exact Or.inl ha
      · exact Or.inr ⟨r, List.mem_cons_self r rs, hb⟩
    · obtain ⟨x, hx, he⟩ := h2
      exact Or.inr ⟨x, List.mem_cons_of_mem r hx, he⟩

/-- C10.  Stored-record invariant of the batch upsert pipeline: every
entry of the resulting store is keyed by the uniqueKey of the stored
record itself, with each slash replaced by an underscore, and the
stored field set includes the uniqueKey field while containing no
field named fingerprint. -/
theorem C10_stored_under_sanitized_uniqueKey :
    (∀ (rows : List UpRow) (k : String) (r : CleanRec),
      (k, r) ∈ uploadDataToFirestore rows [] → k = slashToUnderscore r.uniqueKey) ∧
    "uniqueKey" ∈ storedFieldNames ∧ "fingerprint" ∉ storedFieldNames := by
  refine ⟨fun rows k r h => ?_, by decide, by decide⟩
  rcases mem_uploadFold (cleanRecords rows) [] (k, r) h with h1 | h2
  · simp at h1
  · obtain ⟨x, -, he⟩ := h2
    rw [Prod.mk.injEq] at he
    rw [he.1, he.2, safeKey]

/-- C10 witness: the invariant applied to the concrete upload of upA
and upB, whose store holds one record keyed by its sanitized
uniqueKey. -/
theorem C10_witness :
    safeKey (mkCleanRec upB 992563200000) =
      slashToUnderscore (mkCleanRec upB 992563200000).uniqueKey :=
  C10_stored_under_sanitized_uniqueKey.1 [upA, upB]
    (safeKey (mkCleanRec upB 992563200000)) (mkCleanRec upB 992563200000) (by decide)

end FaulknerRE
